import Mathlib

/-!
Verification of the session protocol of a two-party file transfer
application (connection lifecycle, catalog synchronization, chunked
transfer and reassembly), shallowly embedded from the TypeScript source
(`ReceiveFilesSection.tsx` / `use-peer.tsx` / `peer-types.ts`).

Bytes are modelled as lists of naturals; the `File` handle of the source
becomes a plain byte list.  The chunk size constant `CHUNK_SIZE`
(32 KiB on constrained devices, 64 KiB otherwise) becomes a parameter
`C` with the hypothesis `0 < C` that both concrete values satisfy.
-/

namespace Katana

/-- The byte content of a file (each entry one byte value). -/
abbrev Bytes := List Nat

/-- Metadata of an offered file, mirroring `FileInfo` of `peer-types.ts`
(the optional `file` handle is kept separately in the files map). -/
structure FileInfo where
  id : String
  name : String
  size : Nat
deriving DecidableEq

/-- The payload carried by one `fileChunk` protocol message
(`{fileId, chunkIndex, data, isLast}` with the file id factored out). -/
structure ChunkMsg where
  chunkIndex : Nat
  data : Bytes
  isLast : Bool
deriving DecidableEq

/-- The tagged protocol message union of `peer-types.ts`. -/
inductive ProtocolMessage where
  | hello (peerId : String)
  | offer (file : FileInfo)
  | unoffer (fileId : String)
  | accept (fileIds : List String)
  | fileStart (fileId name : String) (size totalChunks : Nat)
  | fileChunk (fileId : String) (chunkIndex : Nat) (data : Bytes) (isLast : Bool)
  | fileContent (fileId name : String) (data : Bytes)
deriving DecidableEq

/-- The sender computation `Math.ceil(file.size / CHUNK_SIZE)` on naturals:
for `0 < C` this equals the ceiling of `size / C`. -/
def totalChunksOf (size C : Nat) : Nat := (size + C - 1) / C

/-- The sender chunk loop `sendNextChunk` of the `accept` handler:
`data = file.slice(offset, offset + C)`,
`isLast = offset + C >= file.size`; the loop stops after the chunk whose
`isLast` flag is set, otherwise advances `offset` by `C` and increments
`chunkIndex`.  Note the loop body always runs at least once, even for an
empty file. -/
def sendLoop (file : Bytes) (C : Nat) (hC : 0 < C) (offset chunkIndex : Nat) :
    List ChunkMsg :=
  let data := (file.drop offset).take C
  if offset + C ≥ file.length then
    [⟨chunkIndex, data, true⟩]
  else
    ⟨chunkIndex, data, false⟩ :: sendLoop file C hC (offset + C) (chunkIndex + 1)
termination_by file.length - offset
decreasing_by
  simp only [not_le] at *
  omega

/-- All `fileChunk` payloads produced for one accepted file, in emission
order (`sendNextChunk` starting from `offset = 0`, `chunkIndex = 0`). -/
def senderChunks (file : Bytes) (C : Nat) (hC : 0 < C) : List ChunkMsg :=
  sendLoop file C hC 0 0

/-- The whole outbound message sequence the `accept` handler produces for
one file present in the local catalog: the `fileStart` announcement
followed by the chunk stream. -/
def senderMessages (id name : String) (file : Bytes) (C : Nat) (hC : 0 < C) :
    List ProtocolMessage :=
  ProtocolMessage.fileStart id name file.length (totalChunksOf file.length C)
    :: (senderChunks file C hC).map
        (fun m => ProtocolMessage.fileChunk id m.chunkIndex m.data m.isLast)

/-- Per-file receiver state, mirroring the entries of
`downloadingFilesRef` (`{chunks, name, size, receivedChunks, totalChunks}`);
an unset slot of the JS array is `none`. -/
structure DownloadInfo where
  chunks : List (Option Bytes)
  name : String
  size : Nat
  receivedChunks : Nat
  totalChunks : Nat
deriving DecidableEq

/-- The fresh state the `fileStart` handler allocates:
`new Array(totalChunks)` slots, zero received count. -/
def initDownload (name : String) (size totalChunks : Nat) : DownloadInfo :=
  ⟨List.replicate totalChunks none, name, size, 0, totalChunks⟩

/-- JS array element assignment `chunks[chunkIndex] = data`: in-bounds
indices overwrite the slot, an out-of-bounds index grows the array with
unset slots in between. -/
def setSlot (slots : List (Option Bytes)) (i : Nat) (d : Bytes) :
    List (Option Bytes) :=
  if i < slots.length then slots.set i (some d)
  else slots ++ List.replicate (i - slots.length) none ++ [some d]

/-- Reassembly at completion: concatenate all slots by ascending index,
an unset slot contributing zero bytes (`chunk?.byteLength || 0`). -/
def assemble (slots : List (Option Bytes)) : Bytes :=
  (slots.map (fun c => c.getD [])).flatten

/-- The `fileChunk` handler body for a transfer with live state: store the
payload at its index, increment `receivedChunks`, and if `isLast` is set
or the incremented count equals `totalChunks`, deliver the assembled
buffer (the caller then deletes the state). -/
def onFileChunk (st : DownloadInfo) (m : ChunkMsg) :
    DownloadInfo × Option Bytes :=
  let st' : DownloadInfo :=
    { st with chunks := setSlot st.chunks m.chunkIndex m.data,
              receivedChunks := st.receivedChunks + 1 }
  if m.isLast || st'.receivedChunks == st'.totalChunks then
    (st', some (assemble st'.chunks))
  else
    (st', none)

/-- Run the receiver over a chunk sequence for one transfer: the first
delivery ends the transfer (the state is deleted, later chunks for the
same id are dropped because no state matches). -/
def processChunks (st : DownloadInfo) : List ChunkMsg → Option Bytes
  | [] => none
  | m :: rest =>
    match onFileChunk st m with
    | (_, some b) => some b
    | (st', none) => processChunks st' rest

/-- Folding plain slot stores over a chunk list (the cumulative effect of
`chunks[chunkIndex] = data` across messages, ignoring delivery). -/
def storeAll (slots : List (Option Bytes)) (l : List ChunkMsg) :
    List (Option Bytes) :=
  l.foldl (fun s m => setSlot s m.chunkIndex m.data) slots

/-- The byte slice the sender reads for chunk `i`
(`file.slice(C*i, C*i + C)`). -/
def chunkData (file : Bytes) (C i : Nat) : Bytes := (file.drop (C * i)).take C

/-- The extension computation `filename.split(".").pop().toLowerCase()`: the substring after the
final dot (the whole name when there is no dot), lower-cased. -/
def extOf (filename : String) : String :=
  ((filename.splitOn ".").getLastD "").toLower

/-- The static extension-to-content-type table of the chunked receiver
(`fileChunk` completion path). -/
def mimeLookupChunked (ext : String) : Option String :=
  match ext with
  | "jpg" => some "image/jpeg"
  | "jpeg" => some "image/jpeg"
  | "png" => some "image/png"
  | "gif" => some "image/gif"
  | "webp" => some "image/webp"
  | "svg" => some "image/svg+xml"
  | "mp4" => some "video/mp4"
  | "avi" => some "video/x-msvideo"
  | "mov" => some "video/quicktime"
  | "wmv" => some "video/x-ms-wmv"
  | "flv" => some "video/x-flv"
  | "webm" => some "video/webm"
  | "mp3" => some "audio/mpeg"
  | "wav" => some "audio/wav"
  | "flac" => some "audio/flac"
  | "aac" => some "audio/aac"
  | "ogg" => some "audio/ogg"
  | "pdf" => some "application/pdf"
  | "doc" => some "application/msword"
  | "docx" => some "application/vnd.openxmlformats-officedocument.wordprocessingml.document"
  | "txt" => some "text/plain"
  | "rtf" => some "application/rtf"
  | "zip" => some "application/zip"
  | "rar" => some "application/x-rar-compressed"
  | "7z" => some "application/x-7z-compressed"
  | "tar" => some "application/x-tar"
  | "gz" => some "application/gzip"
  | "json" => some "application/json"
  | "xml" => some "application/xml"
  | "html" => some "text/html"
  | "css" => some "text/css"
  | "js" => some "application/javascript"
  | _ => none

/-- The identical table in the legacy whole-file (`fileContent`) handler. -/
def mimeLookupLegacy (ext : String) : Option String :=
  match ext with
  | "jpg" => some "image/jpeg"
  | "jpeg" => some "image/jpeg"
  | "png" => some "image/png"
  | "gif" => some "image/gif"
  | "webp" => some "image/webp"
  | "svg" => some "image/svg+xml"
  | "mp4" => some "video/mp4"
  | "avi" => some "video/x-msvideo"
  | "mov" => some "video/quicktime"
  | "wmv" => some "video/x-ms-wmv"
  | "flv" => some "video/x-flv"
  | "webm" => some "video/webm"
  | "mp3" => some "audio/mpeg"
  | "wav" => some "audio/wav"
  | "flac" => some "audio/flac"
  | "aac" => some "audio/aac"
  | "ogg" => some "audio/ogg"
  | "pdf" => some "application/pdf"
  | "doc" => some "application/msword"
  | "docx" => some "application/vnd.openxmlformats-officedocument.wordprocessingml.document"
  | "txt" => some "text/plain"
  | "rtf" => some "application/rtf"
  | "zip" => some "application/zip"
  | "rar" => some "application/x-rar-compressed"
  | "7z" => some "application/x-7z-compressed"
  | "tar" => some "application/x-tar"
  | "gz" => some "application/gzip"
  | "json" => some "application/json"
  | "xml" => some "application/xml"
  | "html" => some "text/html"
  | "css" => some "text/css"
  | "js" => some "application/javascript"
  | _ => none

/-- The `getMimeType` helper of the chunked receiver: table hit, or the generic
binary type. -/
def getMimeTypeChunked (filename : String) : String :=
  (mimeLookupChunked (extOf filename)).getD "application/octet-stream"

/-- The `getMimeType` helper of the legacy `fileContent` handler. -/
def getMimeTypeLegacy (filename : String) : String :=
  (mimeLookupLegacy (extOf filename)).getD "application/octet-stream"

/-- What a completed chunked transfer hands the Delivery Sink: the
reassembled buffer, the name announced in `fileStart`, and the content
type derived from that name.  `none` when the chunk stream never
completes. -/
def deliveredChunked (name : String) (file : Bytes) (C : Nat) (hC : 0 < C) :
    Option (Bytes × String × String) :=
  (processChunks (initDownload name file.length (totalChunksOf file.length C))
      (senderChunks file C hC)).map
    (fun b => (b, name, getMimeTypeChunked name))

/-- What the legacy whole-file handler hands the Delivery Sink for a
`fileContent{fileId, name, data}` message: the payload as-is. -/
def deliveredLegacy (name : String) (data : Bytes) : Bytes × String × String :=
  (data, name, getMimeTypeLegacy name)

/-- The connection lifecycle states (`ConnectionStatus`). -/
inductive ConnectionStatus where
  | disconnected
  | connecting
  | connected
deriving DecidableEq

/-- A locally added file as stored in `filesMapRef` (name plus bytes). -/
structure FileData where
  name : String
  bytes : Bytes
deriving DecidableEq

/-- The mutable session state of `PeerProvider`: the identity pieces, the
status, both catalogs, the id-to-bytes map and the in-flight download
map, plus whether `connectionRef.current` is non-null. -/
structure PeerState where
  peerId : Option String
  remotePeerId : Option String
  status : ConnectionStatus
  offeredFiles : List FileInfo
  remoteFiles : List FileInfo
  filesMap : List (String × FileData)
  downloadingFiles : List (String × DownloadInfo)
  connection : Bool
deriving DecidableEq

/-- The `conn.on("close")` handler: status to disconnected, remote
identity and remote catalog cleared, connection ref nulled. -/
def onClose (s : PeerState) : PeerState :=
  { s with status := .disconnected, remotePeerId := none, remoteFiles := [],
           connection := false }

/-- The `conn.on("error")` handler: it clears the open-timeout timer and
sets the status to disconnected, nothing else. -/
def onConnError (s : PeerState) : PeerState :=
  { s with status := .disconnected }

/-- The 10-second open-timeout callback of `setupConnection`: when the
channel is still not open it sets the status to disconnected and asks the
adapter to close the channel (any clearing then depends on the adapter
emitting a close event). -/
def onOpenTimeout (s : PeerState) (connOpen : Bool) : PeerState :=
  if connOpen then s else { s with status := .disconnected }

/-- The `offer` handler on the remote catalog: append unless an entry
with the same id already exists. -/
def onOffer (files : List FileInfo) (f : FileInfo) : List FileInfo :=
  if files.any (fun g => g.id == f.id) then files else files ++ [f]

/-- The `offer` case of `handleMessage` on the whole session state. -/
def handleOffer (s : PeerState) (f : FileInfo) : PeerState :=
  { s with remoteFiles := onOffer s.remoteFiles f }

/-- The `connectToPeer(remoteId)` call: close and null any existing connection,
set status connecting, then, when the peer handle is ready and the target
differs from the local identity, request a channel and run
`setupConnection` (which sets connecting again); otherwise fall back to
disconnected.  Returns the new state, the ordered list of statuses the
call assigns, and whether a channel was requested from the adapter. -/
def connectToPeer (s : PeerState) (peerReady : Bool) (remoteId : String) :
    PeerState × List ConnectionStatus × Bool :=
  let s1 : PeerState := { s with connection := false }
  if peerReady && !(s.peerId == some remoteId) then
    ({ s1 with status := .connecting, connection := true },
      [.connecting, .connecting], true)
  else
    ({ s1 with status := .disconnected },
      [.connecting, .disconnected], false)

/-- A single in-bounds slot write, `slots[m.chunkIndex] = some m.data`
(the branch of `setSlot` taken whenever the index is within the
allocated array). -/
def setStore (slots : List (Option Bytes)) (m : ChunkMsg) :
    List (Option Bytes) :=
  slots.set m.chunkIndex (some m.data)

/-- A sample mid-session state: connected, one local and one remote
catalog entry, one in-flight download. -/
def sampleState : PeerState :=
  { peerId := some "me", remotePeerId := some "peer",
    status := .connected,
    offeredFiles := [⟨"l1", "mine.txt", 2⟩],
    remoteFiles := [⟨"f1", "x.txt", 3⟩],
    filesMap := [("l1", ⟨"mine.txt", [1, 2]⟩)],
    downloadingFiles := [("f1", initDownload "x.txt" 3 2)],
    connection := true }

/-- A sample idle state: disconnected, empty catalogs, known local id. -/
def idleState : PeerState :=
  { peerId := some "me", remotePeerId := none,
    status := .disconnected,
    offeredFiles := [], remoteFiles := [],
    filesMap := [], downloadingFiles := [],
    connection := false }

lemma totalChunksOf_le_iff {S C : Nat} (hC : 0 < C) (m : Nat) :
    totalChunksOf S C ≤ m ↔ S ≤ C * m := by
  unfold totalChunksOf
  rw [Nat.div_le_iff_le_mul_add_pred hC]
  generalize C * m = t
  omega

lemma lt_totalChunksOf_iff {S C : Nat} (hC : 0 < C) (k : Nat) :
    k < totalChunksOf S C ↔ C * k < S := by
  rw [← Nat.not_le, ← Nat.not_le, totalChunksOf_le_iff hC]

lemma sendLoop_closed_form (file : Bytes) (C : Nat) (hC : 0 < C) :
    ∀ j k, k + j = totalChunksOf file.length C → C * k < file.length →
      sendLoop file C hC (C * k) k =
        (List.range' k j).map
          (fun i => ⟨i, chunkData file C i,
            decide (i + 1 = totalChunksOf file.length C)⟩) := by
  intro j
  induction j with
  | zero =>
    intro k hk hlt
    have := (lt_totalChunksOf_iff hC k).mpr hlt
    omega
  | succ j ih =>
    intro k hk hlt
    have hklt : k < totalChunksOf file.length C :=
      (lt_totalChunksOf_iff hC k).mpr hlt
    rw [sendLoop]
    have hmul : C * (k + 1) = C * k + C := by ring
    rcases Nat.eq_zero_or_pos j with hj | hj
    · subst hj
      have hlast : file.length ≤ C * k + C := by
        have : totalChunksOf file.length C ≤ k + 1 := by omega
        have := (totalChunksOf_le_iff hC (k + 1)).mp this
        omega
      rw [if_pos (by omega)]
      have : decide (k + 1 = totalChunksOf file.length C) = true := by
        simp; omega
      simp [List.range'_succ, chunkData, this]
    · have hnotlast : ¬ (C * k + C ≥ file.length) := by
        intro h
        have : totalChunksOf file.length C ≤ k + 1 :=
          (totalChunksOf_le_iff hC (k + 1)).mpr (by omega)
        omega
      rw [if_neg hnotlast]
      have hrec := ih (k + 1) (by omega)
        (by have := Nat.not_le.mp hnotlast; omega)
      rw [← hmul] at hnotlast
      rw [hmul.symm, hrec, List.range'_succ]
      have : decide (k + 1 = totalChunksOf file.length C) = false := by
        simp; omega
      simp [chunkData, this]

lemma senderChunks_closed_form (file : Bytes) (C : Nat) (hC : 0 < C)
    (hS : 0 < file.length) :
    senderChunks file C hC =
      (List.range' 0 (totalChunksOf file.length C)).map
        (fun i => ⟨i, chunkData file C i,
          decide (i + 1 = totalChunksOf file.length C)⟩) := by
  have h0 : C * 0 = 0 := by ring
  have := sendLoop_closed_form file C hC (totalChunksOf file.length C) 0
    (by omega) (by omega)
  rw [senderChunks, ← h0] at *
  simpa using this

lemma senderChunks_of_empty (file : Bytes) (C : Nat) (hC : 0 < C)
    (hS : file.length = 0) :
    senderChunks file C hC = [⟨0, [], true⟩] := by
  have : file = [] := List.eq_nil_of_length_eq_zero hS
  subst this
  rw [senderChunks, sendLoop]
  simp

lemma totalChunksOf_zero (C : Nat) (hC : 0 < C) : totalChunksOf 0 C = 0 := by
  unfold totalChunksOf
  exact Nat.div_eq_of_lt (by omega)

lemma processChunks_append_last (lst : ChunkMsg) (hlast : lst.isLast = true) :
    ∀ (pre : List ChunkMsg) (st : DownloadInfo),
      (∀ m ∈ pre, m.isLast = false) →
      (pre ≠ [] → st.receivedChunks + pre.length < st.totalChunks) →
      processChunks st (pre ++ [lst]) =
        some (assemble (setSlot (storeAll st.chunks pre) lst.chunkIndex lst.data)) := by
  intro pre
  induction pre with
  | nil =>
    intro st _ _
    simp [processChunks, onFileChunk, hlast, storeAll]
  | cons m pre ih =>
    intro st hfalse hcount
    have hm : m.isLast = false := hfalse m (List.mem_cons_self m pre)
    have hlt : st.receivedChunks + (pre.length + 1) < st.totalChunks := by
      simpa using hcount (List.cons_ne_nil m pre)
    have hne : (st.receivedChunks + 1 == st.totalChunks) = false := by
      simp; omega
    have honf : onFileChunk st m =
        ({ st with chunks := setSlot st.chunks m.chunkIndex m.data,
                   receivedChunks := st.receivedChunks + 1 }, none) := by
      simp [onFileChunk, hm, hne]
    rw [List.cons_append]
    simp only [processChunks, honf]
    rw [ih _ (fun x hx => hfalse x (List.mem_cons_of_mem m hx))
      (fun _ => by simp only []; omega)]
    rfl

lemma storeAll_range' (d : Nat → Bytes) (b : Nat → Bool) :
    ∀ (j k : Nat) (rest : List (Option Bytes)),
      storeAll
        ((List.range k).map (fun i => some (d i)) ++
          (List.replicate j none ++ rest))
        ((List.range' k j).map (fun i => ⟨i, d i, b i⟩)) =
      (List.range (k + j)).map (fun i => some (d i)) ++ rest := by
  intro j
  induction j with
  | zero => intro k rest; simp [storeAll]
  | succ j ih =>
    intro k rest
    rw [List.range'_succ]
    have hsplit : List.replicate (j + 1) (none : Option Bytes) ++ rest =
        none :: (List.replicate j none ++ rest) := by
      simp [List.replicate_succ]
    rw [hsplit]
    simp only [List.map_cons, storeAll, List.foldl_cons]
    have hlen : k < ((List.range k).map
        (fun i => some (d i)) ++ (none :: (List.replicate j none ++ rest))).length := by
      simp
    have hset : setSlot ((List.range k).map (fun i => some (d i)) ++
        (none :: (List.replicate j none ++ rest))) k (d k) =
        (List.range (k + 1)).map (fun i => some (d i)) ++
          (List.replicate j none ++ rest) := by
      rw [setSlot, if_pos hlen]
      rw [List.set_append_right _ _ (by simp)]
      simp [List.range_succ]
    rw [hset]
    have harr : k + 1 + j = k + (j + 1) := by omega
    have := ih (k + 1) rest
    rw [storeAll, harr] at this
    rw [this]

lemma flatten_chunkData (file : Bytes) (C : Nat) :
    ∀ k, ((List.range k).map (chunkData file C)).flatten = file.take (C * k) := by
  intro k
  induction k with
  | zero => simp
  | succ k ih =>
    rw [List.range_succ, List.map_append, List.flatten_append, ih]
    have hmul : C * (k + 1) = C * k + C := by ring
    rw [hmul, List.take_add]
    simp [chunkData]

lemma assemble_filled (d : Nat → Bytes) (n : Nat) :
    assemble ((List.range n).map (fun i => some (d i))) =
      ((List.range n).map d).flatten := by
  rw [assemble, List.map_map]
  congr 1

/-- One in-order complete transfer: the receiver state allocated by the
`fileStart` handler, fed every sender chunk in emission order, delivers
exactly the source bytes. -/
lemma roundtrip_core (name : String) (file : Bytes) (C : Nat) (hC : 0 < C) :
    processChunks (initDownload name file.length (totalChunksOf file.length C))
      (senderChunks file C hC) = some file := by
  rcases Nat.eq_zero_or_pos file.length with hS | hS
  · have hnil : file = [] := List.eq_nil_of_length_eq_zero hS
    subst hnil
    rw [senderChunks_of_empty [] C hC rfl]
    simp [initDownload, totalChunksOf_zero _ hC, processChunks, onFileChunk,
      setSlot, assemble]
  · have htcpos : 0 < totalChunksOf file.length C :=
      (lt_totalChunksOf_iff hC 0).mpr (by simpa using hS)
    have htake : file.length ≤ C * totalChunksOf file.length C :=
      (totalChunksOf_le_iff hC _).mp le_rfl
    rw [senderChunks_closed_form file C hC hS]
    generalize htc : totalChunksOf file.length C = tc at htcpos htake ⊢
    have hdecomp : List.range' 0 tc = List.range' 0 (tc - 1) ++ [tc - 1] := by
      have h1 : tc = (tc - 1) + 1 := by omega
      rw [h1, List.range'_concat]
      simp
    rw [hdecomp, List.map_append, List.map_cons, List.map_nil]
    have hlastmsg :
        (ChunkMsg.mk (tc - 1) (chunkData file C (tc - 1))
          (decide (tc - 1 + 1 = tc))).isLast = true := by
      simp
      omega
    have happ := processChunks_append_last _ hlastmsg
      ((List.range' 0 (tc - 1)).map
        (fun i => ⟨i, chunkData file C i, decide (i + 1 = tc)⟩))
      (initDownload name file.length tc)
      (fun x hx => by
        rcases List.mem_map.mp hx with ⟨i, hi, hmi⟩
        have hi' := List.mem_range'_1.mp hi
        rw [← hmi]
        simp
        omega)
      (fun _ => by
        simp [initDownload]
        omega)
    rw [happ]
    have hslots : (initDownload name file.length tc).chunks =
        (List.range 0).map (fun i => some (chunkData file C i)) ++
          (List.replicate (tc - 1) none ++ [none]) := by
      simp [initDownload]
      rw [← List.replicate_succ']
      congr 1
      omega
    rw [hslots]
    have hstore := storeAll_range' (chunkData file C)
      (fun i => decide (i + 1 = tc)) (tc - 1) 0 [none]
    simp only [Nat.zero_add] at hstore
    rw [hstore]
    have hsetlast : setSlot ((List.range (tc - 1)).map
        (fun i => some (chunkData file C i)) ++ [none]) (tc - 1)
        (chunkData file C (tc - 1)) =
        (List.range tc).map (fun i => some (chunkData file C i)) := by
      rw [setSlot, if_pos (by simp)]
      rw [List.set_append_right _ _ (by simp)]
      have h1 : tc = (tc - 1) + 1 := by omega
      rw [h1, List.range_succ]
      simp
    dsimp only
    rw [hsetlast, assemble_filled, flatten_chunkData]
    rw [List.take_of_length_le htake]

/-- The value `totalChunksOf S C` is the mathematical ceiling of `S / C`. -/
lemma totalChunksOf_eq_ceil (S C : Nat) (hC : 0 < C) :
    (totalChunksOf S C : ℤ) = ⌈(S : ℚ) / (C : ℚ)⌉ := by
  have hq : (0 : ℚ) < (C : ℚ) := by exact_mod_cast hC
  rw [eq_comm, Int.ceil_eq_iff]
  constructor
  · rcases Nat.eq_zero_or_pos (totalChunksOf S C) with h0 | hpos
    · rw [h0]
      have hnn : (0 : ℚ) ≤ (S : ℚ) / (C : ℚ) := by positivity
      push_cast
      linarith
    · rw [lt_div_iff₀ hq]
      have hlt : C * (totalChunksOf S C - 1) < S := by
        by_contra hcon
        push_neg at hcon
        have h2 := (totalChunksOf_le_iff hC (totalChunksOf S C - 1)).mpr hcon
        omega
      have hlt' : (totalChunksOf S C - 1) * C < S := by
        rw [Nat.mul_comm]
        exact hlt
      have hcast : ((totalChunksOf S C : ℤ) : ℚ) - 1 =
          ((totalChunksOf S C - 1 : Nat) : ℚ) := by
        rw [Nat.cast_sub hpos]
        push_cast
        ring
      rw [hcast]
      exact_mod_cast hlt'
  · rw [div_le_iff₀ hq]
    have h3 : S ≤ totalChunksOf S C * C := by
      rw [Nat.mul_comm]
      exact (totalChunksOf_le_iff hC (totalChunksOf S C)).mp le_rfl
    exact_mod_cast h3

lemma length_senderChunks (file : Bytes) (C : Nat) (hC : 0 < C)
    (hS : 0 < file.length) :
    (senderChunks file C hC).length = totalChunksOf file.length C := by
  rw [senderChunks_closed_form file C hC hS]
  simp

lemma senderChunks_chunkIndex_lt (file : Bytes) (C : Nat) (hC : 0 < C)
    (hS : 0 < file.length) :
    ∀ m ∈ senderChunks file C hC,
      m.chunkIndex < totalChunksOf file.length C := by
  rw [senderChunks_closed_form file C hC hS]
  intro m hm
  rcases List.mem_map.mp hm with ⟨i, hi, hmi⟩
  have hi' := List.mem_range'_1.mp hi
  rw [← hmi]
  simpa using hi'.2

lemma senderChunks_map_chunkIndex (file : Bytes) (C : Nat) (hC : 0 < C)
    (hS : 0 < file.length) :
    (senderChunks file C hC).map (fun m => m.chunkIndex) =
      List.range (totalChunksOf file.length C) := by
  rw [senderChunks_closed_form file C hC hS, List.map_map,
    List.range_eq_range']
  have hcomp : ((fun m : ChunkMsg => m.chunkIndex) ∘
      fun i => (⟨i, chunkData file C i,
        decide (i + 1 = totalChunksOf file.length C)⟩ : ChunkMsg)) =
      fun i => i := rfl
  rw [hcomp]
  simp

lemma senderChunks_countP_isLast (file : Bytes) (C : Nat) (hC : 0 < C) :
    (senderChunks file C hC).countP (fun m => m.isLast) = 1 := by
  rcases Nat.eq_zero_or_pos file.length with hS | hS
  · rw [senderChunks_of_empty file C hC hS]
    rfl
  · rw [senderChunks_closed_form file C hC hS, List.countP_map]
    have htcpos : 0 < totalChunksOf file.length C :=
      (lt_totalChunksOf_iff hC 0).mpr (by simpa using hS)
    generalize totalChunksOf file.length C = tc at htcpos ⊢
    have hdecomp : List.range' 0 tc = List.range' 0 (tc - 1) ++ [tc - 1] := by
      have h1 : tc = (tc - 1) + 1 := by omega
      rw [h1, List.range'_concat]
      simp
    rw [hdecomp, List.countP_append]
    have hzero : List.countP
        ((fun m : ChunkMsg => m.isLast) ∘
          fun i => (⟨i, chunkData file C i, decide (i + 1 = tc)⟩ : ChunkMsg))
        (List.range' 0 (tc - 1)) = 0 := by
      rw [List.countP_eq_zero]
      intro a ha
      have ha' := List.mem_range'_1.mp ha
      simp [Function.comp]
      omega
    rw [hzero]
    simp [List.countP_cons, Function.comp]
    omega

lemma senderChunks_nodup_chunkIndex (file : Bytes) (C : Nat) (hC : 0 < C) :
    ((senderChunks file C hC).map (fun m => m.chunkIndex)).Nodup := by
  rcases Nat.eq_zero_or_pos file.length with hS | hS
  · rw [senderChunks_of_empty file C hC hS]
    simp
  · rw [senderChunks_map_chunkIndex file C hC hS]
    exact List.nodup_range _

lemma storeAll_append_single (s : List (Option Bytes)) (l : List ChunkMsg)
    (m : ChunkMsg) :
    storeAll s (l ++ [m]) = setSlot (storeAll s l) m.chunkIndex m.data := by
  simp [storeAll, List.foldl_append]

lemma storeAll_eq_foldl_set :
    ∀ (l : List ChunkMsg) (slots : List (Option Bytes)),
      (∀ m ∈ l, m.chunkIndex < slots.length) →
      storeAll slots l = l.foldl setStore slots := by
  intro l
  induction l with
  | nil => intro slots _; rfl
  | cons m l ih =>
    intro slots hb
    have hm : m.chunkIndex < slots.length := hb m (List.mem_cons_self m l)
    have h1 : setSlot slots m.chunkIndex m.data = setStore slots m := by
      rw [setSlot, if_pos hm]
      rfl
    have h2 : (setStore slots m).length = slots.length := by
      simp [setStore]
    simp only [storeAll, List.foldl_cons] at *
    rw [h1]
    exact ih (setStore slots m)
      (fun x hx => by rw [h2]; exact hb x (List.mem_cons_of_mem m hx))

lemma foldl_setStore_perm {l l' : List ChunkMsg} (hperm : l.Perm l')
    (hnodup : (l.map (fun m => m.chunkIndex)).Nodup)
    (slots : List (Option Bytes)) :
    l.foldl setStore slots = l'.foldl setStore slots := by
  refine hperm.foldl_eq' ?_ slots
  intro x hx y hy z
  rcases eq_or_ne x y with rfl | hxy
  · rfl
  · have hne : x.chunkIndex ≠ y.chunkIndex := fun h =>
      hxy (List.inj_on_of_nodup_map hnodup hx hy h)
    exact List.set_comm _ _ z hne

lemma storeAll_senderChunks (file : Bytes) (C : Nat) (hC : 0 < C)
    (hS : 0 < file.length) :
    storeAll (List.replicate (totalChunksOf file.length C) none)
        (senderChunks file C hC) =
      (List.range (totalChunksOf file.length C)).map
        (fun i => some (chunkData file C i)) := by
  rw [senderChunks_closed_form file C hC hS]
  have h := storeAll_range' (chunkData file C)
    (fun i => decide (i + 1 = totalChunksOf file.length C))
    (totalChunksOf file.length C) 0 []
  simpa using h

lemma assemble_filled_eq_file (file : Bytes) (C : Nat) (hC : 0 < C) :
    assemble ((List.range (totalChunksOf file.length C)).map
      (fun i => some (chunkData file C i))) = file := by
  rw [assemble_filled, flatten_chunkData]
  exact List.take_of_length_le ((totalChunksOf_le_iff hC _).mp le_rfl)

/-- Claim C1: for every chunk size C greater than zero and every file of
any size and arbitrary byte content, the sender computes totalChunks as
the ceiling of size over C, and a fully received in-order transfer hands
the Delivery Sink a buffer byte-identical to the source file (hence of
exactly the source size). -/
theorem chunked_transfer_correct (name : String) (file : Bytes) (C : Nat)
    (hC : 0 < C) :
    (totalChunksOf file.length C : ℤ) = ⌈(file.length : ℚ) / (C : ℚ)⌉ ∧
    processChunks (initDownload name file.length (totalChunksOf file.length C))
        (senderChunks file C hC) = some file :=
  ⟨totalChunksOf_eq_ceil file.length C hC, roundtrip_core name file C hC⟩

/-- Claim C1 witness: the theorem instantiated at a 3-byte file with
chunk size 2. -/
theorem chunked_transfer_correct_witness :
    (totalChunksOf (List.length ([10, 20, 30] : Bytes)) 2 : ℤ) =
        ⌈((List.length ([10, 20, 30] : Bytes) : ℚ)) / (2 : ℚ)⌉ ∧
    processChunks
        (initDownload "a.txt" (List.length ([10, 20, 30] : Bytes))
          (totalChunksOf (List.length ([10, 20, 30] : Bytes)) 2))
        (senderChunks ([10, 20, 30] : Bytes) 2 (by decide)) =
      some [10, 20, 30] :=
  chunked_transfer_correct "a.txt" [10, 20, 30] 2 (by decide)

/-- Claim C2 counterexample: for an empty file with chunk size 4 the
sender computes totalChunks = 0 yet still emits one fileChunk with
chunkIndex 0, an index outside the (empty) range 0..totalChunks-1. -/
theorem sender_empty_chunk_counterexample :
    totalChunksOf (List.length ([] : Bytes)) 4 = 0 ∧
    senderChunks ([] : Bytes) 4 (by decide) = [⟨0, [], true⟩] :=
  ⟨by decide, senderChunks_of_empty [] 4 (by decide) rfl⟩

/-- Claim C2 (amended): for every accepted file the sender emits the
fileStart first and only fileChunk messages after it; for a file of
positive size the chunk indices are exactly 0..totalChunks-1 in strictly
ascending order and isLast is true exactly on the final chunk; for a file
of size 0 (totalChunks = 0) the sender nevertheless emits exactly one
fileChunk with chunkIndex 0, empty payload, and isLast true. -/
theorem sender_stream_shape (id name : String) (file : Bytes) (C : Nat)
    (hC : 0 < C) (hS : 0 < file.length) :
    (senderMessages id name file C hC).head? =
      some (ProtocolMessage.fileStart id name file.length
        (totalChunksOf file.length C)) ∧
    (∀ msg ∈ (senderMessages id name file C hC).tail,
      ∃ i d b, msg = ProtocolMessage.fileChunk id i d b) ∧
    (senderChunks file C hC).map (fun m => m.chunkIndex) =
      List.range (totalChunksOf file.length C) ∧
    (∀ m ∈ senderChunks file C hC,
      (m.isLast = true ↔ m.chunkIndex + 1 = totalChunksOf file.length C)) ∧
    (∀ (C' : Nat) (hC' : 0 < C'), senderChunks [] C' hC' = [⟨0, [], true⟩]) := by
  refine ⟨rfl, ?_, senderChunks_map_chunkIndex file C hC hS, ?_, ?_⟩
  · intro msg hmsg
    rw [senderMessages] at hmsg
    simp only [List.tail_cons] at hmsg
    rcases List.mem_map.mp hmsg with ⟨m, _, hm⟩
    exact ⟨m.chunkIndex, m.data, m.isLast, hm.symm⟩
  · rw [senderChunks_closed_form file C hC hS]
    intro m hm
    rcases List.mem_map.mp hm with ⟨i, _, hmi⟩
    rw [← hmi]
    simp
  · intro C' hC'
    exact senderChunks_of_empty [] C' hC' rfl

/-- Claim C2 witness: the amended theorem instantiated at a 1-byte file
with chunk size 4. -/
theorem sender_stream_shape_witness :
    (senderMessages "i" "n" ([7] : Bytes) 4 (by decide)).head? =
      some (ProtocolMessage.fileStart "i" "n"
        (List.length ([7] : Bytes))
        (totalChunksOf (List.length ([7] : Bytes)) 4)) ∧
    (∀ msg ∈ (senderMessages "i" "n" ([7] : Bytes) 4 (by decide)).tail,
      ∃ i d b, msg = ProtocolMessage.fileChunk "i" i d b) ∧
    (senderChunks ([7] : Bytes) 4 (by decide)).map (fun m => m.chunkIndex) =
      List.range (totalChunksOf (List.length ([7] : Bytes)) 4) ∧
    (∀ m ∈ senderChunks ([7] : Bytes) 4 (by decide),
      (m.isLast = true ↔
        m.chunkIndex + 1 = totalChunksOf (List.length ([7] : Bytes)) 4)) ∧
    (∀ (C' : Nat) (hC' : 0 < C'), senderChunks [] C' hC' = [⟨0, [], true⟩]) :=
  sender_stream_shape "i" "n" [7] 4 (by decide) (by decide)

/-- Claim C7: processing an offer for an id already present in the remote
catalog is a no-op, and two deliveries of the same offer starting from a
catalog without that id leave exactly one entry with that id. -/
theorem offer_idempotent (l : List FileInfo) (f : FileInfo) :
    onOffer (onOffer l f) f = onOffer l f ∧
    ((l.filter (fun g => g.id == f.id)).length = 0 →
      ((onOffer (onOffer l f) f).filter (fun g => g.id == f.id)).length = 1) := by
  constructor
  · cases h : l.any (fun g => g.id == f.id) with
    | false =>
      have h1 : onOffer l f = l ++ [f] := by simp [onOffer, h]
      rw [h1]
      simp [onOffer, List.any_append]
    | true =>
      have h1 : onOffer l f = l := by simp [onOffer, h]
      rw [h1, h1]
  · intro h0
    have hnone : ∀ g ∈ l, (g.id == f.id) = false := by
      intro g hg
      by_contra hcon
      have : g ∈ l.filter (fun g => g.id == f.id) :=
        List.mem_filter.mpr ⟨hg, by revert hcon; cases (g.id == f.id) <;> simp⟩
      rw [List.length_eq_zero] at h0
      rw [h0] at this
      exact absurd this (List.not_mem_nil g)
    have hany : l.any (fun g => g.id == f.id) = false := by
      rw [List.any_eq_false]
      intro g hg
      simp [hnone g hg]
    have h1 : onOffer l f = l ++ [f] := by simp [onOffer, hany]
    have h2 : onOffer (l ++ [f]) f = l ++ [f] := by
      simp [onOffer, List.any_append]
    rw [h1, h2, List.filter_append]
    have h3 : l.filter (fun g => g.id == f.id) = [] := List.length_eq_zero.mp h0
    rw [h3]
    simp

/-- Claim C7 witness: both offers applied to an empty remote catalog. -/
theorem offer_idempotent_witness :
    onOffer (onOffer [] ⟨"a", "n.txt", 5⟩) ⟨"a", "n.txt", 5⟩ =
        onOffer [] ⟨"a", "n.txt", 5⟩ ∧
    ((onOffer (onOffer [] ⟨"a", "n.txt", 5⟩) ⟨"a", "n.txt", 5⟩).filter
      (fun g => g.id == "a")).length = 1 :=
  ⟨(offer_idempotent [] ⟨"a", "n.txt", 5⟩).1,
    (offer_idempotent [] ⟨"a", "n.txt", 5⟩).2 (by decide)⟩

/-- Claim C9: connection close and error events never modify the local
catalog — both the offered-files list and the id-to-bytes map are
unchanged by either handler. -/
theorem teardown_preserves_local_catalog (s : PeerState) :
    (onClose s).offeredFiles = s.offeredFiles ∧
    (onClose s).filesMap = s.filesMap ∧
    (onConnError s).offeredFiles = s.offeredFiles ∧
    (onConnError s).filesMap = s.filesMap :=
  ⟨rfl, rfl, rfl, rfl⟩

/-- Claim C10: the receivedChunks counter counts messages, not distinct
filled slots: in a transfer announced as 3 bytes in 2 chunks, delivering
the chunkIndex-0 chunk twice fires the completion condition and delivers
a 2-byte buffer, shorter than the announced size, with slot 1 never
filled. -/
theorem duplicate_chunk_premature_completion :
    totalChunksOf 3 2 = 2 ∧
    processChunks (initDownload "f" 3 (totalChunksOf 3 2))
        [⟨0, [1, 2], false⟩, ⟨0, [1, 2], false⟩] = some [1, 2] ∧
    List.length ([1, 2] : Bytes) < (initDownload "f" 3 (totalChunksOf 3 2)).size := by
  refine ⟨by decide, ?_, by decide⟩
  simp [processChunks, onFileChunk, initDownload, totalChunksOf, setSlot,
    assemble]

/-- Claim C3 counterexample: a channel error event while Connected sets
status Disconnected but leaves the remote identity and the (nonempty)
remote catalog untouched, so the clearing is not unconditional on all
paths. -/
theorem error_keeps_remote_counterexample :
    (onConnError sampleState).status = ConnectionStatus.disconnected ∧
    (onConnError sampleState).remotePeerId = some "peer" ∧
    (onConnError sampleState).remoteFiles = [⟨"f1", "x.txt", 3⟩] :=
  ⟨rfl, rfl, rfl⟩

/-- Claim C3 (amended): only the close handler clears the remote identity
and empties the remote catalog; the error handler and the open-timeout
callback set status Disconnected but leave both untouched (the timeout
path merely requests a channel close, so any clearing there depends on
the adapter subsequently emitting a close event). -/
theorem teardown_remote_catalog_paths (s : PeerState) :
    ((onClose s).status = ConnectionStatus.disconnected ∧
      (onClose s).remotePeerId = none ∧ (onClose s).remoteFiles = []) ∧
    ((onConnError s).status = ConnectionStatus.disconnected ∧
      (onConnError s).remotePeerId = s.remotePeerId ∧
      (onConnError s).remoteFiles = s.remoteFiles) ∧
    ((onOpenTimeout s false).status = ConnectionStatus.disconnected ∧
      (onOpenTimeout s false).remotePeerId = s.remotePeerId ∧
      (onOpenTimeout s false).remoteFiles = s.remoteFiles) := by
  refine ⟨⟨rfl, rfl, rfl⟩, ⟨rfl, rfl, rfl⟩, ?_, ?_, ?_⟩ <;>
    simp [onOpenTimeout]

/-- Claim C4 counterexample: the close handler reaches Disconnected while
the in-flight download map still holds its partially received transfer
state; nothing is discarded. -/
theorem close_keeps_downloads_counterexample :
    (onClose sampleState).status = ConnectionStatus.disconnected ∧
    (onClose sampleState).downloadingFiles =
      [("f1", initDownload "x.txt" 3 2)] :=
  ⟨rfl, rfl⟩

/-- Claim C4 (amended): no teardown path (close, error, open-timeout)
touches the in-flight download map; partially received transfer state
survives the transition to Disconnected and is only deleted when its
transfer completes. -/
theorem teardown_keeps_receiver_state (s : PeerState) :
    (onClose s).downloadingFiles = s.downloadingFiles ∧
    (onConnError s).downloadingFiles = s.downloadingFiles ∧
    (onOpenTimeout s false).downloadingFiles = s.downloadingFiles := by
  refine ⟨rfl, rfl, ?_⟩
  simp [onOpenTimeout]

/-- Claim C5 counterexample: delivering the isLast chunk of a 2-chunk
transfer before the other chunk makes the receiver complete immediately
with slot 0 unset: it delivers the 1-byte buffer from slot 1 instead of
the 3-byte source, although the delivered sequence is a permutation of
the sender chunk stream. -/
theorem last_chunk_first_counterexample :
    ([⟨1, [3], true⟩, ⟨0, [1, 2], false⟩] : List ChunkMsg).Perm
      (senderChunks [1, 2, 3] 2 (by decide)) ∧
    processChunks (initDownload "f" 3 (totalChunksOf 3 2))
      [⟨1, [3], true⟩, ⟨0, [1, 2], false⟩] = some [3] ∧
    ([3] : Bytes) ≠ [1, 2, 3] := by
  refine ⟨?_, ?_, by decide⟩
  · have h : senderChunks [1, 2, 3] 2 (by decide) =
        [⟨0, [1, 2], false⟩, ⟨1, [3], true⟩] := by
      simp [senderChunks, sendLoop]
    rw [h]
    exact List.Perm.swap _ _ _
  · simp [processChunks, onFileChunk, initDownload, totalChunksOf, setSlot,
      assemble]

/-- Claim C5 (amended): out-of-order delivery reassembles correctly
provided the completion trigger arrives last: for every permutation of
the sender chunk stream whose prefix before the final message contains no
isLast chunk, the receiver delivers exactly the source bytes.  When the
isLast chunk is observed before earlier indices, completion fires at once
and unset slots are silently omitted, as the counterexample shows. -/
theorem out_of_order_reassembly (name : String) (file : Bytes) (C : Nat)
    (hC : 0 < C) (pre : List ChunkMsg) (lst : ChunkMsg)
    (hperm : (pre ++ [lst]).Perm (senderChunks file C hC))
    (hpre : ∀ m ∈ pre, m.isLast = false) :
    processChunks (initDownload name file.length (totalChunksOf file.length C))
      (pre ++ [lst]) = some file := by
  rcases Nat.eq_zero_or_pos file.length with hS | hS
  · rw [senderChunks_of_empty file C hC hS] at hperm
    have hl : pre ++ [lst] = [⟨0, [], true⟩] := List.perm_singleton.mp hperm
    have hfile : file = [] := List.eq_nil_of_length_eq_zero hS
    have hpre0 : pre = [] := by
      cases pre with
      | nil => rfl
      | cons a t =>
        have hlen := congrArg List.length hl
        simp at hlen
    subst hpre0
    simp only [List.nil_append] at hl ⊢
    have hlst : lst = ⟨0, [], true⟩ := by simpa using hl
    subst hfile
    rw [hlst]
    simp [initDownload, totalChunksOf_zero _ hC, processChunks, onFileChunk,
      setSlot, assemble]
  · have htcpos : 0 < totalChunksOf file.length C :=
      (lt_totalChunksOf_iff hC 0).mpr (by simpa using hS)
    have hlst : lst.isLast = true := by
      have hc := hperm.countP_eq (fun m => m.isLast)
      rw [senderChunks_countP_isLast file C hC, List.countP_append] at hc
      have h0 : (pre.countP fun m => m.isLast) = 0 :=
        List.countP_eq_zero.mpr (fun a ha => by simp [hpre a ha])
      rw [h0] at hc
      by_contra hcon
      have hfalse : lst.isLast = false := by
        revert hcon
        cases lst.isLast <;> simp
      simp [List.countP_cons, hfalse] at hc
    have hprelen : pre.length + 1 = totalChunksOf file.length C := by
      have hlen := hperm.length_eq
      rw [length_senderChunks file C hC hS] at hlen
      simpa using hlen
    have happ := processChunks_append_last lst hlst pre
      (initDownload name file.length (totalChunksOf file.length C)) hpre
      (fun _ => by simp [initDownload]; omega)
    rw [happ, ← storeAll_append_single]
    have hchunkslen :
        (initDownload name file.length (totalChunksOf file.length C)).chunks.length
          = totalChunksOf file.length C := by
      simp [initDownload]
    have hbounds : ∀ m ∈ pre ++ [lst],
        m.chunkIndex < totalChunksOf file.length C :=
      fun m hm => senderChunks_chunkIndex_lt file C hC hS m (hperm.mem_iff.mp hm)
    have hnd : ((pre ++ [lst]).map (fun m => m.chunkIndex)).Nodup :=
      (List.Perm.nodup_iff (hperm.map (fun m => m.chunkIndex))).mpr
        (senderChunks_nodup_chunkIndex file C hC)
    rw [storeAll_eq_foldl_set _ _ (by rw [hchunkslen]; exact hbounds)]
    rw [foldl_setStore_perm hperm hnd]
    rw [← storeAll_eq_foldl_set (senderChunks file C hC) _
      (by rw [hchunkslen]; exact senderChunks_chunkIndex_lt file C hC hS)]
    have hinit :
        (initDownload name file.length (totalChunksOf file.length C)).chunks =
          List.replicate (totalChunksOf file.length C) none := rfl
    rw [hinit, storeAll_senderChunks file C hC hS,
      assemble_filled_eq_file file C hC]

/-- Claim C5 witness: a 3-chunk transfer delivered with the first two
chunks swapped and the isLast chunk last. -/
theorem out_of_order_reassembly_witness :
    ([⟨1, [3, 4], false⟩, ⟨0, [1, 2], false⟩, ⟨2, [5], true⟩] :
        List ChunkMsg).Perm
      (senderChunks [1, 2, 3, 4, 5] 2 (by decide)) ∧
    (∀ m ∈ ([⟨1, [3, 4], false⟩, ⟨0, [1, 2], false⟩] : List ChunkMsg),
      m.isLast = false) ∧
    processChunks (initDownload "f" 5 (totalChunksOf 5 2))
      [⟨1, [3, 4], false⟩, ⟨0, [1, 2], false⟩, ⟨2, [5], true⟩] =
      some [1, 2, 3, 4, 5] := by
  have hsend : senderChunks [1, 2, 3, 4, 5] 2 (by decide) =
      [⟨0, [1, 2], false⟩, ⟨1, [3, 4], false⟩, ⟨2, [5], true⟩] := by
    simp [senderChunks, sendLoop]
  have hp : ([⟨1, [3, 4], false⟩, ⟨0, [1, 2], false⟩, ⟨2, [5], true⟩] :
      List ChunkMsg).Perm (senderChunks [1, 2, 3, 4, 5] 2 (by decide)) := by
    rw [hsend]
    exact List.Perm.swap _ _ _
  exact ⟨hp, by decide,
    out_of_order_reassembly "f" [1, 2, 3, 4, 5] 2 (by decide)
      [⟨1, [3, 4], false⟩, ⟨0, [1, 2], false⟩] ⟨2, [5], true⟩ hp (by decide)⟩

/-- Claim C6 counterexample: connectToPeer aimed at the local identity
assigns Connecting before falling back to Disconnected, so from the
Disconnected start state the status does not remain Disconnected
throughout the call. -/
theorem self_connect_transient_counterexample :
    idleState.status = ConnectionStatus.disconnected ∧
    (connectToPeer idleState true "me").2.1 =
      [ConnectionStatus.connecting, ConnectionStatus.disconnected] ∧
    ConnectionStatus.connecting ∈ (connectToPeer idleState true "me").2.1 := by
  refine ⟨rfl, ?_, ?_⟩ <;> simp [connectToPeer, idleState]

/-- Claim C6 (amended): a connect call whose target equals the local
identity requests no channel from the adapter and ends Disconnected, but
it transiently assigns Connecting before falling back. -/
theorem self_connect_rejected (s : PeerState) (peerReady : Bool)
    (remoteId : String) (hself : s.peerId = some remoteId) :
    (connectToPeer s peerReady remoteId).1.status =
      ConnectionStatus.disconnected ∧
    (connectToPeer s peerReady remoteId).2.2 = false ∧
    (connectToPeer s peerReady remoteId).2.1 =
      [ConnectionStatus.connecting, ConnectionStatus.disconnected] := by
  have hguard : (peerReady && !(s.peerId == some remoteId)) = false := by
    rw [hself]
    simp
  simp [connectToPeer, hguard]

/-- Claim C6 witness: the self-connect call from the idle sample state. -/
theorem self_connect_rejected_witness :
    idleState.peerId = some "me" ∧
    ((connectToPeer idleState true "me").1.status =
        ConnectionStatus.disconnected ∧
      (connectToPeer idleState true "me").2.2 = false ∧
      (connectToPeer idleState true "me").2.1 =
        [ConnectionStatus.connecting, ConnectionStatus.disconnected]) :=
  ⟨rfl, self_connect_rejected idleState true "me" rfl⟩

/-- Claim C8: a file delivered completely and in order by the chunked
contract and the same file delivered by the legacy whole-file fileContent
message hand the Delivery Sink the same (bytes, name, contentType)
tuple; in particular the two extension tables are the same function. -/
theorem protocol_variants_equivalent (name : String) (file : Bytes)
    (C : Nat) (hC : 0 < C) :
    deliveredChunked name file C hC = some (deliveredLegacy name file) ∧
    getMimeTypeChunked = getMimeTypeLegacy := by
  constructor
  · rw [deliveredChunked, roundtrip_core name file C hC]
    rfl
  · rfl

/-- Claim C8 witness: the equivalence at a 3-byte png with chunk size 2. -/
theorem protocol_variants_equivalent_witness :
    deliveredChunked "a.png" [1, 2, 3] 2 (by decide) =
        some (deliveredLegacy "a.png" [1, 2, 3]) ∧
    getMimeTypeChunked = getMimeTypeLegacy :=
  protocol_variants_equivalent "a.png" [1, 2, 3] 2 (by decide)

end Katana
